import Mathlib

/-!
Verification development for the codec abstraction of the network client
I/O pipeline (`modules/platforms/cpp/network/include/ignite/network/codec.h`).

The repository source provides the abstract `Codec` interface:

  class Codec {
  public:
      virtual ~Codec() = default;
      // @return Encoded data. Returning null is ok.  @throw ignite_error on error.
      virtual DataBufferOwning encode(DataBufferOwning &data) = 0;
      // @return Decoded data. Returning null means data is not yet ready.  @throw ignite_error on error.
      virtual DataBufferRef decode(DataBufferRef &data) = 0;
  };

Part 1 embeds the interface at the signature/contract level, exactly as the
header declares it.  Part 2 models the behavioral layer (pipeline driver,
accumulation, a length-prefix framer stage) from the specification, since the
concrete buffer types, pipeline driver and codec implementations are not part
of the given source.
-/

/-- C++ types appearing in the `Codec` interface of `codec.h`. -/
inductive CppType where
  | dataBufferOwning
  | dataBufferRef
  | igniteError
deriving DecidableEq

/-- Parameter passing mode of a C++ function parameter. -/
inductive PassMode where
  | byValue
  | lvalueRef
  | constLvalueRef
deriving DecidableEq

/-- A C++ function parameter: passing mode, constness and type. -/
structure Param where
  mode : PassMode
  isConst : Bool
  ty : CppType
deriving DecidableEq

/-- What the doc comment of a method in `codec.h` says about a null return. -/
inductive NullReturnDoc where
  /-- The doc comment says returning null is ok (not an error). -/
  | allowedOk
  /-- The doc comment says returning null means data is not yet ready. -/
  | meansNotReady
deriving DecidableEq

/-- A method signature together with the contract stated in its doc comment. -/
structure MethodSig where
  param : Param
  ret : CppType
  /-- Error kinds the doc comment declares the method may throw. -/
  throws : List CppType
  nullReturn : NullReturnDoc
  isPureVirtual : Bool
deriving DecidableEq

/-- Signature of `virtual DataBufferOwning encode(DataBufferOwning &data) = 0;`
with its doc comment: returning null is ok; throws `ignite_error` on error. -/
def Codec.encodeSig : MethodSig :=
  ⟨⟨PassMode.lvalueRef, false, CppType.dataBufferOwning⟩,
    CppType.dataBufferOwning, [CppType.igniteError], NullReturnDoc.allowedOk, true⟩

/-- Signature of `virtual DataBufferRef decode(DataBufferRef &data) = 0;`
with its doc comment: returning null means data is not yet ready; throws
`ignite_error` on error. -/
def Codec.decodeSig : MethodSig :=
  ⟨⟨PassMode.lvalueRef, false, CppType.dataBufferRef⟩,
    CppType.dataBufferRef, [CppType.igniteError], NullReturnDoc.meansNotReady, true⟩

/-- Whether a C++ type of the interface owns its backing storage:
`DataBufferOwning` does, the non-owning view `DataBufferRef` does not. -/
def ownsStorage : CppType → Bool
  | CppType.dataBufferOwning => true
  | _ => false

/-- A parameter transfers ownership of a buffer into the callee only when an
owning buffer type is passed by value; a reference parameter transfers none. -/
def paramTransfersOwnership (p : Param) : Bool :=
  decide (p.mode = PassMode.byValue) && ownsStorage p.ty

/-- The method consumes its input by value semantics: the parameter is passed
by value, so ownership moves into the call. -/
def consumesByValue (sig : MethodSig) : Prop :=
  sig.param.mode = PassMode.byValue

/- ### Part 2: behavioral layer modelled from the specification. -/

/-- Modelled from the spec: the error taxonomy `CodecError{stage, cause}` of
§7 (the concrete `ignite_error` class is not part of the given source).  It
carries the index of the originating stage and a human-readable cause. -/
structure CodecError where
  stage : Nat
  cause : String
deriving DecidableEq

/-- Modelled from the spec: a single codec stage (§4.1); the concrete codec
implementations are not part of the given source.  Buffers are byte lists.
`enc` transforms a whole buffer or fails with a cause.  `dec` takes the
stage's accumulation buffer and the newly presented bytes, and returns either
a fully decoded unit together with the retained remainder, or `none` (not
ready) together with the retained accumulation, or fails with a cause. -/
structure SpecCodec where
  enc : List Nat → Except String (List Nat)
  dec : List Nat → List Nat → Except String (Option (List Nat) × List Nat)

/-- Modelled from the spec: the encode-path pipeline driver state machine
`{Idle, Encoding, Failed}` of §4.3 (the driver is not part of the given
source). -/
inductive PipelineState where
  | Idle
  | Encoding
  | Failed
deriving DecidableEq

/-- Modelled from the spec: the encode chain of §4.3 (the driver is not part
of the given source).  Stage `i` in the list is `Codec[i]`; encode flows
`Codec[N-1]` down to `Codec[0]`, so the tail of the list is encoded first.
An error of stage `i` is attributed as `CodecError` with stage `i`. -/
def encodeIdx : Nat → List SpecCodec → List Nat → Except CodecError (List Nat)
  | _, [], b => Except.ok b
  | i, c :: rest, b =>
    match encodeIdx (i + 1) rest b with
    | Except.error e => Except.error e
    | Except.ok b2 =>
      match c.enc b2 with
      | Except.error cause => Except.error ⟨i, cause⟩
      | Except.ok b3 => Except.ok b3

/-- Modelled from the spec: the full encode chain over `Codec[0..N-1]`. -/
def encodeChain (stages : List SpecCodec) (b : List Nat) : Except CodecError (List Nat) :=
  encodeIdx 0 stages b

/-- Modelled from the spec: the encode-path driver of §4.3; terminal state is
`Idle` on success (buffer handed to transport) or `Failed` on error. -/
def driveEncode (stages : List SpecCodec) (b : List Nat) :
    PipelineState × Except CodecError (List Nat) :=
  match encodeChain stages b with
  | Except.ok out => (PipelineState.Idle, Except.ok out)
  | Except.error e => (PipelineState.Failed, Except.error e)

/-- Modelled from the spec: the decode chain of §4.4 (the driver is not part
of the given source).  `accs` holds the per-stage accumulation buffers; stage
`Codec[0]` decodes first.  If a stage returns `none`, the pipeline stops
(`none` overall) and later stages are not invoked; if it returns a unit, the
unit is fed to the next stage.  Errors are attributed to their stage. -/
def decodeIdx : Nat → List SpecCodec → List (List Nat) → List Nat →
    Except CodecError (Option (List Nat) × List (List Nat))
  | _, [], _, b => Except.ok (some b, [])
  | i, c :: rest, accs, b =>
    match c.dec (accs.headD []) b with
    | Except.error cause => Except.error ⟨i, cause⟩
    | Except.ok (none, acc2) => Except.ok (none, acc2 :: accs.tail)
    | Except.ok (some frame, acc2) =>
      match decodeIdx (i + 1) rest accs.tail frame with
      | Except.error e => Except.error e
      | Except.ok (r, accs2) => Except.ok (r, acc2 :: accs2)

/-- Modelled from the spec: the full decode chain over `Codec[0..N-1]`. -/
def decodeChain (stages : List SpecCodec) (accs : List (List Nat)) (b : List Nat) :
    Except CodecError (Option (List Nat) × List (List Nat)) :=
  decodeIdx 0 stages accs b

/-- Modelled from the spec: the decode-path driver outcome; any stage error
transitions the whole pipeline to the fatal `Failed` state (§4.4). -/
def driveDecode (stages : List SpecCodec) (accs : List (List Nat)) (b : List Nat) :
    PipelineState × Except CodecError (Option (List Nat) × List (List Nat)) :=
  match decodeChain stages accs b with
  | Except.ok r => (PipelineState.Idle, Except.ok r)
  | Except.error e => (PipelineState.Failed, Except.error e)

/-- Modelled from the spec: a reversible codec stage (§8): decoding, from a
fresh accumulation state, the bytes produced by a successful encode yields
exactly the encoded payload with nothing left over. -/
def Reversible (c : SpecCodec) : Prop :=
  ∀ b out, c.enc b = Except.ok out →
    c.dec [] out = Except.ok (some b, [])

/-- Modelled from the spec: big-endian 32-bit encoding of a length (§8
scenario, 4-byte length prefix). -/
def be32encode (n : Nat) : List Nat :=
  [n / 2 ^ 24 % 256, n / 2 ^ 16 % 256, n / 2 ^ 8 % 256, n % 256]

/-- Modelled from the spec: big-endian 32-bit decoding of a 4-byte prefix. -/
def be32decode : List Nat → Nat
  | [a, b, c, d] => ((a * 256 + b) * 256 + c) * 256 + d
  | _ => 0

/-- Modelled from the spec: `LengthPrefixFramer.encode` (§8 scenario; the
concrete framer is not part of the given source): prefix the payload with its
4-byte big-endian length; a payload whose length exceeds the 32-bit limit is
malformed for this stage and raises a length/limit violation. -/
def framerEncode (payload : List Nat) : Except String (List Nat) :=
  if payload.length < 2 ^ 32 then
    Except.ok (be32encode payload.length ++ payload)
  else
    Except.error "payload length exceeds the 32-bit length prefix limit"

/-- Modelled from the spec: one `LengthPrefixFramer.decode` step (§4.1, §8).
All presented bytes are appended to the accumulation; if fewer than 4 bytes
are available, or fewer than the prefixed length, the result is not ready and
everything is retained; otherwise exactly one unit of the prefixed length is
produced and the remainder is retained. -/
def framerStep (acc input : List Nat) : Option (List Nat) × List Nat :=
  let total := acc ++ input
  if total.length < 4 then
    (none, total)
  else
    let n := be32decode (total.take 4)
    if total.length < 4 + n then
      (none, total)
    else
      (some ((total.drop 4).take n), (total.drop 4).drop n)

/-- Modelled from the spec: the `LengthPrefixFramer` stage of the §8
scenario, packaged as a codec; its decode step never raises. -/
def lengthPrefixFramer : SpecCodec :=
  ⟨framerEncode, fun acc input => Except.ok (framerStep acc input)⟩

/-- Modelled from the spec: feed a sequence of chunks to successive framer
decode calls (§8 partial delivery), collecting each call's result and the
final accumulation state. -/
def feedChunks (acc : List Nat) : List (List Nat) → List (Option (List Nat)) × List Nat
  | [] => ([], acc)
  | c :: rest =>
    let r := framerStep acc c
    let rs := feedChunks r.2 rest
    (r.1 :: rs.1, rs.2)

/-- Modelled from the spec: the accumulated bytes complete one logical unit
when the 4-byte length prefix is present and the declared payload length is
available after it. -/
abbrev frameComplete (total : List Nat) : Prop :=
  4 ≤ total.length ∧ 4 + be32decode (total.take 4) ≤ total.length

/-- Modelled from the spec: a stage that intentionally suppresses output
(§4.1, buffering for later batch emission): its encode returns an empty
buffer, which is a success, never an error. -/
def suppressCodec : SpecCodec :=
  ⟨fun _ => Except.ok [], fun _ input => Except.ok (none, input)⟩

/-- Modelled from the spec: a stage whose transformation fails with an
integrity failure (§7), used to exercise failure isolation. -/
def corruptStage : SpecCodec :=
  ⟨fun _ => Except.error "integrity check failed",
   fun _ _ => Except.error "integrity check failed"⟩

/- ### Helper lemmas -/

theorem be32encode_length (n : Nat) : (be32encode n).length = 4 := rfl

theorem be32_roundtrip (n : Nat) (h : n < 2 ^ 32) :
    be32decode (be32encode n) = n := by
  simp only [be32encode, be32decode]
  omega

theorem framerStep_complete (payload : List Nat) (h : payload.length < 2 ^ 32) :
    framerStep [] (be32encode payload.length ++ payload) = (some payload, []) := by
  have htake : (be32encode payload.length ++ payload).take 4 = be32encode payload.length :=
    List.take_left' (be32encode_length _)
  have hdrop : (be32encode payload.length ++ payload).drop 4 = payload :=
    List.drop_left' (be32encode_length _)
  have hlen : (be32encode payload.length ++ payload).length = 4 + payload.length := by
    simp [be32encode]
    omega
  simp only [framerStep, List.nil_append, htake, hdrop, hlen, be32_roundtrip _ h]
  rw [if_neg (by omega), if_neg (by omega)]
  simp

theorem framer_reversible : Reversible lengthPrefixFramer := by
  intro b out h
  simp only [lengthPrefixFramer, framerEncode] at h ⊢
  by_cases hb : b.length < 2 ^ 32
  · rw [if_pos hb] at h
    injection h with h2
    subst h2
    rw [framerStep_complete b hb]
  · rw [if_neg hb] at h
    cases h

theorem framerStep_not_ready (acc input s : List Nat)
    (h : framerStep acc input = (none, s)) : s = acc ++ input := by
  simp only [framerStep] at h
  split at h
  · simpa using h.symm
  · split at h
    · simpa using h.symm
    · simp at h

theorem framerStep_not_ready_cond (acc input s : List Nat)
    (h : framerStep acc input = (none, s)) :
    (acc ++ input).length < 4 ∨
      (acc ++ input).length < 4 + be32decode ((acc ++ input).take 4) := by
  simp only [framerStep] at h
  split at h
  · left; assumption
  · split at h
    · right; assumption
    · simp at h

theorem framerStep_poll (s : List Nat)
    (hc : s.length < 4 ∨ s.length < 4 + be32decode (s.take 4)) :
    framerStep s [] = (none, s) := by
  simp only [framerStep, List.append_nil]
  rcases hc with h1 | h2
  · rw [if_pos h1]
  · by_cases h1 : s.length < 4
    · rw [if_pos h1]
    · rw [if_neg h1, if_pos h2]

theorem feedChunks_poll (s : List Nat)
    (hc : s.length < 4 ∨ s.length < 4 + be32decode (s.take 4)) :
    ∀ k, feedChunks s (List.replicate k []) = (List.replicate k none, s) := by
  intro k
  induction k with
  | zero => simp [feedChunks]
  | succ k ih =>
    simp only [List.replicate_succ, feedChunks, framerStep_poll s hc, ih]

/- ### Claim theorems -/

/-- Claim C1 (counterexample): the claim states that `encode` consumes its
input buffer by value semantics, with ownership moving into the call through
the parameter.  The header declares `encode(DataBufferOwning &data)`: the
parameter is a non-const lvalue reference, not a by-value parameter, so the
claim as stated is false of the declared signature. -/
theorem encode_not_consumed_by_value : ¬ consumesByValue Codec.encodeSig := by
  simp [consumesByValue, Codec.encodeSig]

/-- Claim C1 (amended): `encode` receives its input buffer by non-const
lvalue reference to `DataBufferOwning` and returns a `DataBufferOwning`; the
caller must treat the buffer as consumed after a successful call, but the
signature itself performs no by-value ownership transfer — the referenced
buffer may be drained or reused in place. -/
theorem encode_input_by_mutable_reference :
    Codec.encodeSig.param.mode = PassMode.lvalueRef ∧
    Codec.encodeSig.param.isConst = false ∧
    Codec.encodeSig.param.ty = CppType.dataBufferOwning ∧
    Codec.encodeSig.ret = CppType.dataBufferOwning ∧
    paramTransfersOwnership Codec.encodeSig.param = false :=
  ⟨rfl, rfl, rfl, rfl, rfl⟩

/-- Claim C10: both `encode` and `decode` receive their argument by non-const
lvalue reference (`DataBufferOwning &` and `DataBufferRef &`), so a call may
modify the caller's argument object in place, and the parameter type itself
transfers no ownership. -/
theorem signature_mutable_reference_params :
    Codec.encodeSig.param = ⟨PassMode.lvalueRef, false, CppType.dataBufferOwning⟩ ∧
    Codec.decodeSig.param = ⟨PassMode.lvalueRef, false, CppType.dataBufferRef⟩ ∧
    paramTransfersOwnership Codec.encodeSig.param = false ∧
    paramTransfersOwnership Codec.decodeSig.param = false :=
  ⟨rfl, rfl, rfl, rfl⟩

/-- Claim C5: `encode` may legitimately return an empty/null buffer when the
stage intentionally suppresses output; the header's doc comment says
returning null is ok, and for a modelled output-suppressing stage the
pipeline driver treats an empty result as success (`Idle`), never as an
error. -/
theorem encode_null_return_is_success :
    Codec.encodeSig.nullReturn = NullReturnDoc.allowedOk ∧
    (∀ b, suppressCodec.enc b = Except.ok []) ∧
    (∀ b, driveEncode [suppressCodec] b = (PipelineState.Idle, Except.ok [])) :=
  ⟨rfl, fun _ => rfl, fun _ => rfl⟩

/-- Claim C2: `decode` never takes ownership of the bytes it is given — its
parameter and return types are the non-owning view type — and a not-ready
result leaves the presented bytes unchanged and re-presentable: the retained
accumulation is exactly the previously accumulated bytes followed by the
newly presented input, nothing dropped or altered. -/
theorem decode_borrows_and_retains_bytes :
    ownsStorage Codec.decodeSig.param.ty = false ∧
    ownsStorage Codec.decodeSig.ret = false ∧
    ∀ acc input s, lengthPrefixFramer.dec acc input = Except.ok (none, s) →
      s = acc ++ input := by
  refine ⟨rfl, rfl, ?_⟩
  intro acc input s h
  simp only [lengthPrefixFramer] at h
  injection h with h2
  exact framerStep_not_ready acc input s h2

/-- Claim C2 witness: at a concrete not-ready input the retained bytes are
exactly the accumulated bytes followed by the presented input. -/
theorem decode_borrows_and_retains_bytes_witness :
    lengthPrefixFramer.dec [0] [0, 0] = Except.ok (none, [0, 0, 0]) ∧
    ([0, 0, 0] : List Nat) = [0] ++ [0, 0] :=
  ⟨rfl, decode_borrows_and_retains_bytes.2.2 [0] [0, 0] [0, 0, 0] rfl⟩

/-- Claim C4: when the available bytes do not complete one logical unit the
framer decode returns an empty (not-ready) result — a success, not an error —
and retains every byte; when they do complete a unit it returns exactly one
fully decoded unit of the prefixed length, and the undecoded remainder is
retained for the next call: the bytes decompose into header, returned unit
and retained remainder. -/
theorem framer_decode_not_ready_or_one_unit (acc input : List Nat) :
    (¬ frameComplete (acc ++ input) →
      lengthPrefixFramer.dec acc input = Except.ok (none, acc ++ input)) ∧
    (frameComplete (acc ++ input) →
      ∃ frame rest, lengthPrefixFramer.dec acc input = Except.ok (some frame, rest) ∧
        frame.length = be32decode ((acc ++ input).take 4) ∧
        acc ++ input = (acc ++ input).take 4 ++ (frame ++ rest)) := by
  constructor
  · intro hnc
    simp only [frameComplete] at hnc
    push_neg at hnc
    simp only [lengthPrefixFramer, framerStep]
    by_cases h1 : (acc ++ input).length < 4
    · rw [if_pos h1]
    · have h2 := hnc (by omega)
      rw [if_neg h1, if_pos h2]
  · intro hc
    obtain ⟨h4, hn⟩ := hc
    refine ⟨((acc ++ input).drop 4).take (be32decode ((acc ++ input).take 4)),
            ((acc ++ input).drop 4).drop (be32decode ((acc ++ input).take 4)), ?_, ?_, ?_⟩
    · simp only [lengthPrefixFramer, framerStep]
      rw [if_neg (by omega), if_neg (by omega)]
    · rw [List.length_take, List.length_drop]
      omega
    · rw [List.take_append_drop, List.take_append_drop]

/-- Claim C4 witness: with 2 bytes available the framer is not ready and
keeps them; with 5 bytes declaring a 1-byte payload it emits exactly that
unit and retains the (empty) remainder. -/
theorem framer_decode_not_ready_or_one_unit_witness :
    (¬ frameComplete (([] : List Nat) ++ [0, 0]) ∧
      lengthPrefixFramer.dec [] [0, 0] = Except.ok (none, [] ++ [0, 0])) ∧
    (frameComplete (([0, 0] : List Nat) ++ [0, 1, 9]) ∧
      ∃ frame rest, lengthPrefixFramer.dec [0, 0] [0, 1, 9] = Except.ok (some frame, rest) ∧
        frame.length = be32decode ((([0, 0] : List Nat) ++ [0, 1, 9]).take 4) ∧
        ([0, 0] : List Nat) ++ [0, 1, 9] =
          (([0, 0] : List Nat) ++ [0, 1, 9]).take 4 ++ (frame ++ rest)) :=
  ⟨⟨by decide, (framer_decode_not_ready_or_one_unit [] [0, 0]).1 (by decide)⟩,
   ⟨by decide, (framer_decode_not_ready_or_one_unit [0, 0] [0, 1, 9]).2 (by decide)⟩⟩

/-- Claim C8: after a decode call reported not ready, polling decode
repeatedly with no new bytes deterministically yields a not-ready (empty)
result on every call, and the accumulated state is unchanged by the repeated
polling. -/
theorem not_ready_polling_idempotent (acc input s : List Nat)
    (h : lengthPrefixFramer.dec acc input = Except.ok (none, s)) :
    ∀ k, feedChunks s (List.replicate k []) = (List.replicate k none, s) := by
  simp only [lengthPrefixFramer] at h
  injection h with h2
  have hs := framerStep_not_ready acc input s h2
  have hc := framerStep_not_ready_cond acc input s h2
  rw [← hs] at hc
  exact feedChunks_poll s hc

/-- Claim C8 witness: after a not-ready result on two bytes, three successive
polls with no new bytes all report not ready and keep the state intact. -/
theorem not_ready_polling_idempotent_witness :
    lengthPrefixFramer.dec [] [1, 2] = Except.ok (none, [1, 2]) ∧
    feedChunks [1, 2] (List.replicate 3 []) = (List.replicate 3 none, [1, 2]) :=
  ⟨rfl, not_ready_polling_idempotent [] [1, 2] [1, 2] rfl 3⟩

theorem encodeIdx_cons_ok (i : Nat) (c : SpecCodec) (rest : List SpecCodec) (b w : List Nat)
    (h : encodeIdx i (c :: rest) b = Except.ok w) :
    ∃ m, encodeIdx (i + 1) rest b = Except.ok m ∧ c.enc m = Except.ok w := by
  unfold encodeIdx at h
  split at h
  · simp at h
  · rename_i b2 heq
    split at h
    · simp at h
    · rename_i b3 hc
      injection h with h2
      subst h2
      exact ⟨b2, heq, hc⟩

theorem encodeIdx_ok_shift (l : List SpecCodec) (b : List Nat) (i j : Nat) (w : List Nat)
    (h : encodeIdx i l b = Except.ok w) : encodeIdx j l b = Except.ok w := by
  induction l generalizing i j w with
  | nil => simpa [encodeIdx] using h
  | cons c rest ih =>
    obtain ⟨m, hm, hc⟩ := encodeIdx_cons_ok i c rest b w h
    simp only [encodeIdx, ih (i + 1) (j + 1) m hm, hc]

theorem encodeIdx_error_stage (l : List SpecCodec) (b : List Nat) (i : Nat) (e : CodecError)
    (h : encodeIdx i l b = Except.error e) : i ≤ e.stage ∧ e.stage < i + l.length := by
  induction l generalizing i e with
  | nil => simp [encodeIdx] at h
  | cons c rest ih =>
    unfold encodeIdx at h
    split at h
    · rename_i e2 heq
      injection h with h2
      have h3 := ih (i + 1) e2 heq
      rw [h2] at h3
      simp only [List.length_cons]
      omega
    · rename_i b2 heq
      split at h
      · rename_i cause hc
        injection h with h2
        rw [← h2]
        refine ⟨Nat.le_refl i, ?_⟩
        show i < i + (c :: rest).length
        simp only [List.length_cons]
        omega
      · simp at h

theorem encodeIdx_append (l1 l2 : List SpecCodec) (b : List Nat) (i : Nat) :
    encodeIdx i (l1 ++ l2) b =
      match encodeIdx (i + l1.length) l2 b with
      | Except.error e => Except.error e
      | Except.ok m => encodeIdx i l1 m := by
  induction l1 generalizing i with
  | nil =>
    simp only [List.nil_append, List.length_nil, Nat.add_zero]
    cases encodeIdx i l2 b <;> rfl
  | cons c rest ih =>
    simp only [List.cons_append]
    have hlen : i + (c :: rest).length = i + 1 + rest.length := by
      simp only [List.length_cons]
      omega
    rw [hlen]
    cases h2 : encodeIdx (i + 1 + rest.length) l2 b with
    | error e => simp only [encodeIdx, ih (i + 1), h2]
    | ok m => simp only [encodeIdx, ih (i + 1), h2]

theorem decodeIdx_ok_shift (l : List SpecCodec) (i j : Nat) (accs : List (List Nat))
    (b : List Nat) (r : Option (List Nat) × List (List Nat))
    (h : decodeIdx i l accs b = Except.ok r) : decodeIdx j l accs b = Except.ok r := by
  induction l generalizing i j accs b r with
  | nil => simpa [decodeIdx] using h
  | cons c rest ih =>
    unfold decodeIdx at h ⊢
    split at h
    · simp at h
    · exact h
    · rename_i frame acc2 heq
      split at h
      · simp at h
      · rename_i r2 accs2 hq
        simp only [ih (i + 1) (j + 1) accs.tail frame (r2, accs2) hq]
        exact h

/-- Claim C3: both `encode` and `decode` declare exactly one error kind —
`ignite_error` in the header, carrying a human-readable cause, modelled as
`CodecError` with stage attribution — and every such error is
connection-fatal: the pipeline driver ends in the `Failed` state, on the
encode path and on the decode path alike, with the error's stage attributed
within the pipeline. -/
theorem single_error_kind_connection_fatal :
    Codec.encodeSig.throws = [CppType.igniteError] ∧
    Codec.decodeSig.throws = [CppType.igniteError] ∧
    (∀ stages b e, encodeChain stages b = Except.error e →
      e.stage < stages.length ∧
      driveEncode stages b = (PipelineState.Failed, Except.error e)) ∧
    (∀ stages accs b e, decodeChain stages accs b = Except.error e →
      driveDecode stages accs b = (PipelineState.Failed, Except.error e)) := by
  refine ⟨rfl, rfl, ?_, ?_⟩
  · intro stages b e h
    refine ⟨?_, ?_⟩
    · have h2 := encodeIdx_error_stage stages b 0 e h
      omega
    · unfold driveEncode
      rw [h]
  · intro stages accs b e h
    unfold driveDecode
    rw [h]

/-- Claim C3 witness: a failing stage makes both drivers end `Failed` with a
stage-attributed error. -/
theorem single_error_kind_connection_fatal_witness :
    (encodeChain [corruptStage] [] = Except.error ⟨0, "integrity check failed"⟩ ∧
      (⟨0, "integrity check failed"⟩ : CodecError).stage < [corruptStage].length ∧
      driveEncode [corruptStage] [] =
        (PipelineState.Failed, Except.error ⟨0, "integrity check failed"⟩)) ∧
    (decodeChain [corruptStage] [[]] [] = Except.error ⟨0, "integrity check failed"⟩ ∧
      driveDecode [corruptStage] [[]] [] =
        (PipelineState.Failed, Except.error ⟨0, "integrity check failed"⟩)) :=
  ⟨⟨rfl,
    (single_error_kind_connection_fatal.2.2.1 [corruptStage] []
      ⟨0, "integrity check failed"⟩ rfl).1,
    (single_error_kind_connection_fatal.2.2.1 [corruptStage] []
      ⟨0, "integrity check failed"⟩ rfl).2⟩,
   ⟨rfl,
    single_error_kind_connection_fatal.2.2.2 [corruptStage] [[]] []
      ⟨0, "integrity check failed"⟩ rfl⟩⟩

/-- Claim C9: when stage K raises during a pipeline invocation the pipeline
fails immediately: on the encode path the result is a `CodecError` attributed
to stage K, the driver ends `Failed`, no partially transformed buffer is
surfaced, and the stages invoked after K (the lower-indexed ones, `pre`) are
never invoked — the outcome is the same for any replacement of them; on the
decode path a stage error is attributed to that stage and the downstream
stages (`rest`) are never invoked — the outcome does not depend on them. -/
theorem failure_isolation_fail_fast
    (pre rest : List SpecCodec) (c : SpecCodec) (b b2 : List Nat) (cause : String)
    (hrest : encodeIdx (pre.length + 1) rest b = Except.ok b2)
    (hfail : c.enc b2 = Except.error cause) :
    (encodeChain (pre ++ c :: rest) b = Except.error ⟨pre.length, cause⟩ ∧
      driveEncode (pre ++ c :: rest) b =
        (PipelineState.Failed, Except.error ⟨pre.length, cause⟩) ∧
      ∀ pre2 : List SpecCodec, pre2.length = pre.length →
        encodeChain (pre2 ++ c :: rest) b = encodeChain (pre ++ c :: rest) b) ∧
    (∀ i c2 rest2 rest3 accs b3 cause2,
      SpecCodec.dec c2 (List.headD accs []) b3 = Except.error cause2 →
        decodeIdx i (c2 :: rest2) accs b3 = Except.error ⟨i, cause2⟩ ∧
        decodeIdx i (c2 :: rest2) accs b3 = decodeIdx i (c2 :: rest3) accs b3) := by
  have hmid : encodeIdx pre.length (c :: rest) b = Except.error ⟨pre.length, cause⟩ := by
    simp only [encodeIdx, hrest, hfail]
  have hchain : ∀ pre2 : List SpecCodec, pre2.length = pre.length →
      encodeChain (pre2 ++ c :: rest) b = Except.error ⟨pre.length, cause⟩ := by
    intro pre2 hlen2
    show encodeIdx 0 (pre2 ++ c :: rest) b = _
    simp only [encodeIdx_append pre2 (c :: rest) b 0, Nat.zero_add, hlen2, hmid]
  refine ⟨⟨hchain pre rfl, ?_, ?_⟩, ?_⟩
  · unfold driveEncode
    rw [hchain pre rfl]
  · intro pre2 hlen2
    rw [hchain pre2 hlen2, hchain pre rfl]
  · intro i c2 rest2 rest3 accs b3 cause2 hd
    constructor
    · simp only [decodeIdx, hd]
    · simp only [decodeIdx, hd]

/-- Claim C9 witness: stage 1 of a two-stage pipeline fails during encode;
the error is attributed to stage 1 and the driver ends `Failed`, without
invoking stage 0. -/
theorem failure_isolation_fail_fast_witness :
    encodeIdx ([lengthPrefixFramer].length + 1) [] [1] = Except.ok [1] ∧
    corruptStage.enc [1] = Except.error "integrity check failed" ∧
    encodeChain ([lengthPrefixFramer] ++ corruptStage :: []) [1] =
      Except.error ⟨[lengthPrefixFramer].length, "integrity check failed"⟩ ∧
    driveEncode ([lengthPrefixFramer] ++ corruptStage :: []) [1] =
      (PipelineState.Failed,
        Except.error ⟨[lengthPrefixFramer].length, "integrity check failed"⟩) :=
  ⟨rfl, rfl,
    (failure_isolation_fail_fast [lengthPrefixFramer] [] corruptStage [1] [1]
      "integrity check failed" rfl rfl).1.1,
    (failure_isolation_fail_fast [lengthPrefixFramer] [] corruptStage [1] [1]
      "integrity check failed" rfl rfl).1.2.1⟩

/-- Claim C6: for every valid buffer B, when all pipeline stages are
reversible codecs, decoding the output of the full encode chain through the
pipeline (with fresh per-stage accumulation) reconstructs B exactly, leaving
every accumulation buffer empty. -/
theorem pipeline_roundtrip_reversible (stages : List SpecCodec) (B W : List Nat)
    (hrev : ∀ c ∈ stages, Reversible c)
    (henc : encodeChain stages B = Except.ok W) :
    decodeChain stages (List.replicate stages.length []) W =
      Except.ok (some B, List.replicate stages.length []) := by
  induction stages generalizing B W with
  | nil =>
    simp only [encodeChain, encodeIdx] at henc
    injection henc with h2
    subst h2
    rfl
  | cons c rest ih =>
    obtain ⟨M, hM, hcW⟩ := encodeIdx_cons_ok 0 c rest B W henc
    have hM0 : encodeIdx 0 rest B = Except.ok M := encodeIdx_ok_shift rest B 1 0 M hM
    have hrevc : Reversible c := hrev c (List.mem_cons_self c rest)
    have hrest : ∀ x ∈ rest, Reversible x := fun x hx => hrev x (List.mem_cons_of_mem c hx)
    have hdec := ih B M hrest hM0
    have hcd : c.dec [] W = Except.ok (some M, []) := hrevc M W hcW
    have hdec1 : decodeIdx 1 rest (List.replicate rest.length []) M =
        Except.ok (some B, List.replicate rest.length []) :=
      decodeIdx_ok_shift rest 0 1 (List.replicate rest.length []) M
        (some B, List.replicate rest.length []) hdec
    simp only [decodeChain, List.length_cons, List.replicate_succ, decodeIdx,
      List.headD_cons, List.tail_cons, hcd, hdec1]

/-- Claim C6 witness: a one-stage pipeline of the reversible length-prefix
framer round-trips the buffer `[1, 2, 3]` exactly. -/
theorem pipeline_roundtrip_reversible_witness :
    (∀ c ∈ [lengthPrefixFramer], Reversible c) ∧
    encodeChain [lengthPrefixFramer] [1, 2, 3] = Except.ok [0, 0, 0, 3, 1, 2, 3] ∧
    decodeChain [lengthPrefixFramer] (List.replicate [lengthPrefixFramer].length [])
        [0, 0, 0, 3, 1, 2, 3] =
      Except.ok (some [1, 2, 3], List.replicate [lengthPrefixFramer].length []) := by
  have h1 : ∀ c ∈ [lengthPrefixFramer], Reversible c := by
    intro c hc
    rw [List.mem_singleton] at hc
    subst hc
    exact framer_reversible
  exact ⟨h1, rfl,
    pipeline_roundtrip_reversible [lengthPrefixFramer] [1, 2, 3]
      [0, 0, 0, 3, 1, 2, 3] h1 rfl⟩

theorem framerStep_total_only (acc input : List Nat) :
    framerStep acc input = framerStep [] (acc ++ input) := by
  simp [framerStep]

theorem framerEncode_ok (payload wire : List Nat)
    (h : framerEncode payload = Except.ok wire) :
    payload.length < 2 ^ 32 ∧ wire = be32encode payload.length ++ payload := by
  unfold framerEncode at h
  split at h
  · rename_i hlt
    injection h with h2
    exact ⟨hlt, h2.symm⟩
  · simp at h

theorem framerStep_prefix_not_ready (payload t s : List Nat)
    (hp : payload.length < 2 ^ 32)
    (hpre : t ++ s = be32encode payload.length ++ payload)
    (hlt : t.length < (be32encode payload.length ++ payload).length) :
    framerStep [] t = (none, t) := by
  have hWlen : (be32encode payload.length ++ payload).length = 4 + payload.length := by
    simp [be32encode]
    omega
  simp only [framerStep, List.nil_append]
  by_cases h4 : t.length < 4
  · rw [if_pos h4]
  · have htake : t.take 4 = (be32encode payload.length ++ payload).take 4 := by
      rw [← hpre, List.take_append_of_le_length (by omega)]
    have hdec : be32decode (t.take 4) = payload.length := by
      rw [htake, List.take_left' (be32encode_length _), be32_roundtrip _ hp]
    rw [if_neg h4, hdec, if_pos (by omega)]

theorem feedChunks_chunked (payload : List Nat) (hp : payload.length < 2 ^ 32) :
    ∀ (chunks : List (List Nat)) (acc : List Nat),
      chunks ≠ [] → (∀ c ∈ chunks, c ≠ []) →
      acc ++ chunks.flatten = be32encode payload.length ++ payload →
      feedChunks acc chunks =
        (List.replicate (chunks.length - 1) none ++ [some payload], []) := by
  intro chunks
  induction chunks with
  | nil =>
    intro acc h hc hj
    exact absurd rfl h
  | cons c rest ih =>
    intro acc hne hcne hjoin
    rw [List.flatten_cons] at hjoin
    cases rest with
    | nil =>
      rw [List.flatten_nil, List.append_nil] at hjoin
      have hstep : framerStep acc c = (some payload, []) := by
        rw [framerStep_total_only, hjoin]
        exact framerStep_complete payload hp
      simp [feedChunks, hstep]
    | cons d rest2 =>
      have hd : d ≠ [] := hcne d (by simp)
      have hdpos : 0 < d.length := List.length_pos.mpr hd
      have hpre : (acc ++ c) ++ (d :: rest2).flatten =
          be32encode payload.length ++ payload := by
        rw [List.append_assoc]
        exact hjoin
      have hlt : (acc ++ c).length < (be32encode payload.length ++ payload).length := by
        have h2 := congrArg List.length hpre
        simp only [List.length_append, List.flatten_cons] at h2 ⊢
        omega
      have hnr : framerStep acc c = (none, acc ++ c) := by
        rw [framerStep_total_only]
        exact framerStep_prefix_not_ready payload (acc ++ c) (d :: rest2).flatten hp hpre hlt
      have hih := ih (acc ++ c) (by simp)
        (fun x hx => hcne x (List.mem_cons_of_mem c hx)) hpre
      rw [show feedChunks acc (c :: d :: rest2) =
          ((framerStep acc c).1 :: (feedChunks (framerStep acc c).2 (d :: rest2)).1,
           (feedChunks (framerStep acc c).2 (d :: rest2)).2) from rfl, hnr]
      simp [hih, List.replicate_succ]

/-- Claim C7: splitting the byte sequence produced by a valid framer encode
into any number of non-empty chunks and feeding them to successive decode
calls yields not-ready on every call but the last, which returns exactly the
decoded unit of a single-call decode of the whole sequence; chunk boundary
placement never changes the result. -/
theorem chunking_independent_decode (payload wire : List Nat) (chunks : List (List Nat))
    (henc : framerEncode payload = Except.ok wire)
    (hne : chunks ≠ []) (hcne : ∀ c ∈ chunks, c ≠ [])
    (hflat : chunks.flatten = wire) :
    feedChunks [] chunks =
      (List.replicate (chunks.length - 1) none ++ [some payload], []) ∧
    framerStep [] wire = (some payload, []) := by
  obtain ⟨hp, rfl⟩ := framerEncode_ok payload wire henc
  constructor
  · exact feedChunks_chunked payload hp chunks [] hne hcne (by simpa using hflat)
  · exact framerStep_complete payload hp

/-- Claim C7 witness: the spec scenario — the encoding of "hello" fed as the
chunks "\x00\x00\x00\x05he" and "llo" gives not-ready then the full unit
"hello", the same unit as a single-call decode. -/
theorem chunking_independent_decode_witness :
    framerEncode [104, 101, 108, 108, 111] =
      Except.ok [0, 0, 0, 5, 104, 101, 108, 108, 111] ∧
    feedChunks [] [[0, 0, 0, 5, 104, 101], [108, 108, 111]] =
      ([none, some [104, 101, 108, 108, 111]], []) ∧
    framerStep [] [0, 0, 0, 5, 104, 101, 108, 108, 111] =
      (some [104, 101, 108, 108, 111], []) := by
  refine ⟨rfl, ?_, ?_⟩
  · have h := chunking_independent_decode [104, 101, 108, 108, 111]
      [0, 0, 0, 5, 104, 101, 108, 108, 111]
      [[0, 0, 0, 5, 104, 101], [108, 108, 111]] rfl (by simp) (by simp) rfl
    simpa using h.1
  · exact (chunking_independent_decode [104, 101, 108, 108, 111]
      [0, 0, 0, 5, 104, 101, 108, 108, 111]
      [[0, 0, 0, 5, 104, 101], [108, 108, 111]] rfl (by simp) (by simp) rfl).2
